import Mathlib

/-!
# Shallow embedding of `src/allocator.c`

A slab allocator with eight power-of-two size classes (16..2048 bytes),
page-granularity carving, intrusive singly-linked free lists, and a
large-object path that maps pages directly.

Modelling conventions:
* Addresses and sizes are natural numbers; `size_t` arithmetic is reduced
  modulo `SIZE_T_MOD = 2 ^ 64` exactly where the C code can overflow.
* The process address space visible to the allocator is a list of mapped
  pages (`PageRec`), newest first.  `mmap` is modelled by an oracle flag
  `mmapOk` plus a bump pointer `nextBase` handing out fresh page-aligned
  addresses (POSIX `mmap` rejects a zero length, hence the `len ≠ 0` test).
* An intrusive free list (each free block's first word holds the address of
  the next free block, `NULL`-terminated) is represented by the list of the
  block addresses in link order: the node after `a` in the list is the value
  of `a`'s `next` field, and the end of the list is the `NULL` link.
* `exit(2)` inside `xxmalloc` is modelled by the `MallocResult.exited`
  constructor carrying the logged diagnostic, the exit status, and the
  allocator state at the moment the process dies.
-/

/-- `#define MIN_MALLOC_SIZE 16` -/
def MIN_MALLOC_SIZE : Nat := 16

/-- `#define PAGE_SIZE 0x1000` -/
def PAGE_SIZE : Nat := 0x1000

/-- `#define MAGIC 12073110` -/
def MAGIC : Nat := 12073110

/-- `size_t` values live below `2 ^ 64`. -/
def SIZE_T_MOD : Nat := 2 ^ 64

/-- `#define ROUND_UP(x, y) ((x) % (y) == 0 ? (x) : (x) + ((y) - (x) % (y)))`,
with the addition carried out in `size_t` (modulo `2 ^ 64`).  For `x < 2 ^ 64`
and `y ≤ 2 ^ 64` the intermediate `(y) - (x) % (y)` never underflows, so a
single final reduction is exact. -/
def ROUND_UP (x y : Nat) : Nat :=
  if x % y = 0 then x else (x + (y - x % y)) % SIZE_T_MOD

/-- Loop of `round_power_2`:
`size_t accum = 16; size_t i = 0; while (accum < x) { accum *= 2; i++; } return i + 4;`
written with structural fuel.  Starting from `accum = 16 = 2 ^ 4`, `accum`
reaches `2 ^ 64` within 60 iterations, at which point `accum < x` fails for
every `size_t` value, so fuel 64 reproduces the C loop exactly for every
`x < 2 ^ 64` reachable here (the sole caller guarantees `x ≤ 2048`, where the
`size_t` multiplication cannot wrap). -/
def rp2_loop : Nat → Nat → Nat → Nat → Nat
  | 0, _, _, i => i + 4
  | fuel + 1, x, accum, i =>
      if accum < x then rp2_loop fuel x (accum * 2) (i + 1) else i + 4

/-- `size_t round_power_2(size_t x)` (src/allocator.c lines 40-49): returns
`log2` of the size class for `x`, i.e. a value `i + 4` with class size
`2 ^ (i + 4)`. -/
def round_power_2 (x : Nat) : Nat := rp2_loop 64 x MIN_MALLOC_SIZE 0

/-- Loop of `xxfree` (src/allocator.c lines 168-174):
`int accum = 0; int start = block_size; while (start != 16) { start >>= 1; accum += 1; }`.
`start` halves every iteration, so fuel 32 covers every positive `int`.  When
`start` would never hit exactly 16 (possible only for a header size this
allocator never writes) the C loop does not terminate; that divergence is
modelled by `none`. -/
def class_index_loop : Nat → Nat → Nat → Option Nat
  | 0, _, _ => none
  | fuel + 1, start, accum =>
      if start = 16 then some accum
      else class_index_loop fuel (start / 2) (accum + 1)

/-- The free-list index `xxfree` computes from a page header's block size. -/
def class_index (block_size : Nat) : Option Nat :=
  class_index_loop 32 block_size 0

/-- What the allocator knows about one mapped page: either a carved
small-object page (header stamped at carve time, blocks of one size class,
with the *current* content `magicWord` of the header's `magic` field — `MAGIC`
as stamped, until an intrusive free-list store aliases the header), or a
direct large-object mapping of `len` bytes. -/
inductive PageKind : Type
  | small (block_size : Nat) (magicWord : Nat)
  | large (len : Nat)
deriving DecidableEq, Repr

/-- Byte length of the mapping described by a `PageKind`. -/
def pageLen : PageKind → Nat
  | .small _ _ => PAGE_SIZE
  | .large len => len

/-- The word read as `page->magic` at offset 0 of the page: the current magic
word for carved small pages (src/allocator.c line 122 stamps `MAGIC`; see
`storeNextAt` for the one write that can change it), and 0 for large mappings
(anonymous mappings are zero-filled and the large path writes no header;
caller writes inside a handed-out large mapping are caller-owned and not
tracked). -/
def pageMagic : PageKind → Nat
  | .small _ w => w
  | .large _ => 0

/-- The word read as `page->size` at offset 8 of the page: the block size for
carved small pages (src/allocator.c line 123), 0 (zero fill) for large
mappings.  The `size` field is never overwritten: the one aliasing store,
`p->next` at a page base (see `storeNextAt`), covers bytes 0..7 only
(`int magic` plus struct padding). -/
def headerSize : PageKind → Nat
  | .small bs _ => bs
  | .large _ => 0

/-- One mapped page: its page-aligned base address and its kind. -/
structure PageRec : Type where
  base : Nat
  kind : PageKind
deriving DecidableEq, Repr

/-- Allocator state: the global `void* lists[8]` free-list table (each
intrusive list as its list of block addresses in link order), the mapped
pages (newest first), and the `mmap` model (bump pointer + success oracle). -/
structure AllocState : Type where
  lists : List (List Nat)
  pages : List PageRec
  nextBase : Nat
  mmapOk : Bool
deriving DecidableEq, Repr

/-- `cast_ptr - (cast_ptr % PAGE_SIZE)`: the base of the page containing
address `a` (src/allocator.c lines 155, 209). -/
def pg_base (a : Nat) : Nat := a - a % PAGE_SIZE

/-- The mapped page containing address `a`, if any. -/
def findPage (s : AllocState) (a : Nat) : Option PageRec :=
  s.pages.find? (fun pr => pr.base = pg_base a)

/-- Read free list number `i` of the table. -/
def listsGet (s : AllocState) (i : Nat) : List Nat := s.lists.getD i []

/-- Effect on the page headers of the intrusive store `p->next = cur`
(src/allocator.c line 189), an 8-byte write at the block start `p`.  When `p`
is a page's base address, the write lands on that page's header and
overwrites its `magic` field (a 32-bit `int` at offset 0; the stored pointer
pattern's low 32 bits become the new magic word — bit-pattern equality with
`MAGIC < 2 ^ 31` makes the later `page->magic != MAGIC` test a plain `Nat`
comparison).  A write at any other address touches no header word this model
tracks (the first word of a large mapping is caller-owned and, as everywhere
here, not tracked). -/
def storeNextAt (pages : List PageRec) (p cur : Nat) : List PageRec :=
  pages.map (fun q =>
    if q.base = p then
      match q.kind with
      | .small bs _ => ⟨q.base, .small bs (cur % 2 ^ 32)⟩
      | .large len => ⟨q.base, .large len⟩
    else q)

/-- Model of `mmap(NULL, len, PROT_READ | PROT_WRITE, MAP_ANONYMOUS | MAP_PRIVATE, -1, 0)`:
on success, a fresh address (page-aligned whenever `nextBase` is kept
page-aligned and `len` a page multiple); failure when the oracle says so or
when `len = 0` (POSIX rejects zero-length mappings with `EINVAL`). -/
def AllocState.mmap (s : AllocState) (len : Nat) : Option (Nat × AllocState) :=
  if s.mmapOk ∧ len ≠ 0 then
    some (s.nextBase, { s with nextBase := s.nextBase + len })
  else none

/-- The diagnostic messages `xxmalloc` hands to `log_message` before `exit(2)`. -/
inductive LogMsg : Type
  | mmapFailedGivingUp  -- "mmap failed! Giving up.\n" (large path, line 74)
  | mmapFailed          -- "mmap failed\n" (carve path, line 97)
deriving DecidableEq, Repr

/-- Outcome of a call to `xxmalloc`: a returned pointer with the new state, or
process termination (`log_message(msg); exit(code)`) with the state at death. -/
inductive MallocResult : Type
  | exited (msg : LogMsg) (code : Nat) (s : AllocState)
  | ok (ptr : Nat) (s : AllocState)
deriving DecidableEq, Repr

/-- The allocator state in a `MallocResult` (final state, or state at exit). -/
def MallocResult.state : MallocResult → AllocState
  | .exited _ _ s => s
  | .ok _ s => s

/-- Carving a fresh page `p` for class `list_index` (src/allocator.c lines
101-125), after `mmap` has produced `p`: partition the page into
`n = PAGE_SIZE / block_size` blocks; thread blocks `1..n-1` into a free list
in address order (the loop writes block `i`'s `next` to block `i + 1`, and
`NULL` into the last block); stamp the header (`magic`, `size`) into block 0;
install the list at `lists[list_index - 4]` (the C code stores
`p + block_size`, the address of block 1, which is the head of that list). -/
def carve_page (s : AllocState) (list_index : Nat) (p : Nat) : AllocState :=
  let block_size := 2 ^ list_index
  let n := PAGE_SIZE / block_size
  let newList := (List.range (n - 1)).map (fun j => p + (j + 1) * block_size)
  { s with
    pages := ⟨p, .small block_size MAGIC⟩ :: s.pages,
    lists := s.lists.set (list_index - 4) newList }

/-- The tail of `xxmalloc` (src/allocator.c lines 128-140): re-read
`lists[idx]`, take its head block, advance the list to the head's `next`,
and return the block.  On an empty list the C code dereferences `NULL`
(`block->next` with `block == NULL`); that branch is unreachable in
`xxmalloc` because it only runs after a carve has filled the list or when
the list was observed non-empty, and is given the junk value `ok 0` here. -/
def pop_head (s : AllocState) (idx : Nat) : MallocResult :=
  match listsGet s idx with
  | [] => .ok 0 s
  | b :: rest => .ok b { s with lists := s.lists.set idx rest }

/-- `void* xxmalloc(size_t size)` (src/allocator.c lines 63-141). -/
def xxmalloc (s : AllocState) (size : Nat) : MallocResult :=
  if 2048 < size then
    -- large path: round the size up to the next multiple of the page size,
    -- map that many bytes, and return the mapping
    let len := ROUND_UP size PAGE_SIZE
    match s.mmap len with
    | none => .exited .mmapFailedGivingUp 2 s
    | some (p, s') => .ok p { s' with pages := ⟨p, .large len⟩ :: s'.pages }
  else
    let list_index := round_power_2 size
    let list := listsGet s (list_index - 4)
    if list = [] then
      match s.mmap PAGE_SIZE with
      | none => .exited .mmapFailed 2 s
      | some (p, s1) => pop_head (carve_page s1 list_index p) (list_index - 4)
    else
      pop_head s (list_index - 4)

/-- `size_t xxmalloc_usable_size(void* ptr)` (src/allocator.c lines 198-217):
0 for `NULL`; otherwise read the header of the containing page and return
`page->size` when `page->magic == MAGIC`, else 0.  When no mapping contains
`ptr` the C read is undefined behaviour; it is modelled as a non-matching
tag (result 0). -/
def xxmalloc_usable_size (s : AllocState) (ptr : Nat) : Nat :=
  if ptr = 0 then 0
  else
    match findPage s ptr with
    | none => 0
    | some pr => if pageMagic pr.kind = MAGIC then headerSize pr.kind else 0

/-- `void xxfree(void* ptr)` (src/allocator.c lines 147-190): no-op on `NULL`;
no-op when the containing page's magic does not match; otherwise recover the
block size from the header (via `xxmalloc_usable_size`), locate the free list
by halving down to 16, truncate `ptr` down to the block start, and push that
block on the list head: `lists[accum] = p; p->next = cur` — the store of
`cur` (the old list head, `NULL` modelled as 0) into the first word of `p` is
applied to the page headers by `storeNextAt`, clobbering the magic word when
`p` is the page base (a pointer into block 0).  The `none` branch of
`class_index` marks inputs on which the C halving loop would not terminate
(impossible for any header this allocator writes); reading an unmapped page
is undefined behaviour in C and modelled, as in `xxmalloc_usable_size`, as a
non-matching tag. -/
def xxfree (s : AllocState) (ptr : Nat) : AllocState :=
  if ptr = 0 then s
  else
    match findPage s ptr with
    | none => s
    | some pr =>
      if pageMagic pr.kind ≠ MAGIC then s
      else
        let block_size := xxmalloc_usable_size s ptr
        if block_size = 0 then s
        else
          match class_index block_size with
          | none => s
          | some accum =>
            let p := ptr - ptr % block_size
            let cur := (listsGet s accum).headD 0
            { s with lists := s.lists.set accum ((p :: listsGet s accum) : List Nat),
                     pages := storeNextAt s.pages p cur }

/-- Process start: `void* lists[8] = {NULL}` and no pages mapped yet.  `base`
is the (nonzero, page-aligned) address region the OS will hand out, `ok` the
`mmap` oracle. -/
def initState (base : Nat) (ok : Bool) : AllocState :=
  { lists := [[], [], [], [], [], [], [], []],
    pages := [],
    nextBase := base,
    mmapOk := ok }

/-- `c` is the smallest power of two that is at least `m` (the spec's
description of the size class of a request). -/
def IsLeastPow2Ge (m c : Nat) : Prop :=
  (∃ k, c = 2 ^ k) ∧ m ≤ c ∧ ∀ d, (∃ k, d = 2 ^ k) → m ≤ d → c ≤ d

/-- Well-formedness of an allocator state, established at process start and
preserved by `xxmalloc` and `xxfree`:
* the free-list table has its eight entries;
* `mmap`'s bump pointer is nonzero and page-aligned;
* every mapped page is nonzero, page-aligned, of positive length, below the
  bump pointer, and pairwise separated (newest first);
* every small page's block size is one of the eight class sizes;
* every block on free list `i` is aligned to `2 ^ (i + 4)` and lies in a
  mapped page carved for exactly that class. -/
structure AllocInv (s : AllocState) : Prop where
  len8 : s.lists.length = 8
  nbPos : 0 < s.nextBase
  nbAligned : s.nextBase % PAGE_SIZE = 0
  pages_ok : ∀ pr ∈ s.pages, 0 < pr.base ∧ pr.base % PAGE_SIZE = 0 ∧
      0 < pageLen pr.kind ∧ pr.base + pageLen pr.kind ≤ s.nextBase
  pages_class : ∀ pr ∈ s.pages, ∀ bs w, pr.kind = PageKind.small bs w →
      ∃ i, i < 8 ∧ bs = 2 ^ (i + 4)
  pages_sep : s.pages.Pairwise (fun p q => q.base + pageLen q.kind ≤ p.base)
  lists_ok : ∀ i, i < 8 → ∀ a ∈ listsGet s i,
      a % 2 ^ (i + 4) = 0 ∧
      ∃ pr ∈ s.pages, pr.base = pg_base a ∧
        pr.kind = PageKind.small (2 ^ (i + 4)) MAGIC

/-- The spec's free-list agreement invariant (claim C5): every node reachable
from free list `i` lies in a mapped page whose header carries the ownership
tag and records block size `2 ^ (i + 4)`. -/
def ClassListInv (s : AllocState) : Prop :=
  ∀ i, i < 8 → ∀ a ∈ listsGet s i,
    ∃ pr, findPage s a = some pr ∧ pageMagic pr.kind = MAGIC ∧
      headerSize pr.kind = 2 ^ (i + 4)

-- sanity checks of the executable model
example : round_power_2 0 = 4 := by decide
example : round_power_2 16 = 4 := by decide
example : round_power_2 17 = 5 := by decide
example : round_power_2 2048 = 11 := by decide
example : class_index 2048 = some 7 := by decide
example : class_index 16 = some 0 := by decide
example : ROUND_UP 3000 PAGE_SIZE = 4096 := by decide
example :
    xxmalloc (initState 4096 true) 3000 =
      .ok 4096
        { lists := [[], [], [], [], [], [], [], []],
          pages := [⟨4096, .large 4096⟩], nextBase := 8192, mmapOk := true } := by
  decide
example :
    ∃ st', xxmalloc (initState 4096 true) 16 = .ok (4096 + 16) st' ∧
      xxmalloc_usable_size st' (4096 + 16) = 16 := by
  refine ⟨_, rfl, ?_⟩
  decide

/-! ## The size classifier `round_power_2` -/

/-- Loop invariant of `round_power_2`'s while loop: starting from
`accum = 2 ^ (i + 4)` and enough fuel, the loop returns an exponent `r ≥ i + 4`
with `x ≤ 2 ^ r`, and either it never iterated (`r = i + 4`) or the previous
power was still below `x`. -/
theorem rp2_loop_spec :
    ∀ (fuel i x : Nat), x ≤ 2 ^ (i + 4) * 2 ^ fuel →
      i + 4 ≤ rp2_loop fuel x (2 ^ (i + 4)) i ∧
      x ≤ 2 ^ rp2_loop fuel x (2 ^ (i + 4)) i ∧
      (rp2_loop fuel x (2 ^ (i + 4)) i = i + 4 ∨
        2 ^ (rp2_loop fuel x (2 ^ (i + 4)) i - 1) < x) := by
  intro fuel
  induction fuel with
  | zero =>
    intro i x hx
    simp only [rp2_loop]
    simp only [pow_zero, mul_one] at hx
    exact ⟨le_refl _, hx, Or.inl trivial⟩
  | succ fuel ih =>
    intro i x hx
    simp only [rp2_loop]
    by_cases h : 2 ^ (i + 4) < x
    · simp only [if_pos h]
      have hacc : 2 ^ (i + 4) * 2 = 2 ^ (i + 1 + 4) := by ring
      have hx' : x ≤ 2 ^ (i + 1 + 4) * 2 ^ fuel := by
        calc x ≤ 2 ^ (i + 4) * 2 ^ (fuel + 1) := hx
        _ = 2 ^ (i + 1 + 4) * 2 ^ fuel := by ring
      have h2 := ih (i + 1) x hx'
      rw [hacc]
      refine ⟨by omega, h2.2.1, ?_⟩
      rcases h2.2.2 with h1 | h1
      · right; rw [h1]; simpa using h
      · right; exact h1
    · simp only [if_neg h]
      exact ⟨le_refl _, by omega, Or.inl trivial⟩

/-- For every request on the small path (`x ≤ 2048`), `round_power_2` lands in
`[4, 11]`, its power of two covers `x`, and the next smaller power does not
(unless the minimum class 16 was chosen). -/
theorem round_power_2_spec (x : Nat) (hx : x ≤ 2048) :
    4 ≤ round_power_2 x ∧ round_power_2 x ≤ 11 ∧
      x ≤ 2 ^ round_power_2 x ∧
      (round_power_2 x = 4 ∨ 2 ^ (round_power_2 x - 1) < x) := by
  have h16 : (MIN_MALLOC_SIZE : Nat) = 2 ^ (0 + 4) := by decide
  have hfin : x ≤ 2 ^ (0 + 4) * 2 ^ 64 := by
    have h64 : (2048 : Nat) ≤ 2 ^ (0 + 4) * 2 ^ 64 := by norm_num
    omega
  have hs := rp2_loop_spec 64 0 x hfin
  rw [show round_power_2 x = rp2_loop 64 x (2 ^ (0 + 4)) 0 from by rw [round_power_2, h16]]
  refine ⟨hs.1, ?_, hs.2.1, hs.2.2⟩
  rcases hs.2.2 with h1 | h1
  · omega
  · have h2 : 2 ^ (rp2_loop 64 x (2 ^ (0 + 4)) 0 - 1) < 2 ^ 11 :=
      lt_of_lt_of_le h1 (le_trans hx (by norm_num))
    have h3 := (Nat.pow_lt_pow_iff_right (by norm_num : 1 < 2)).mp h2
    omega

/-- The class size `2 ^ round_power_2 x` is the smallest power of two
`≥ max x 16`, for every size on the small path. -/
theorem round_power_2_least (x : Nat) (hx : x ≤ 2048) :
    IsLeastPow2Ge (max x 16) (2 ^ round_power_2 x) := by
  obtain ⟨h4, _h11, hcov, hmin⟩ := round_power_2_spec x hx
  refine ⟨⟨round_power_2 x, rfl⟩, ?_, ?_⟩
  · have : (16 : Nat) = 2 ^ 4 := by norm_num
    have h16 : (16 : Nat) ≤ 2 ^ round_power_2 x := by
      rw [this]; exact Nat.pow_le_pow_right (by norm_num) h4
    exact max_le hcov h16
  · rintro d ⟨k, rfl⟩ hd
    have hxk : x ≤ 2 ^ k := le_trans (le_max_left _ _) hd
    have h16k : (16 : Nat) ≤ 2 ^ k := le_trans (le_max_right _ _) hd
    have hk4 : 4 ≤ k := by
      by_contra hlt
      have : 2 ^ k < 2 ^ 4 := Nat.pow_lt_pow_right (by norm_num) (by omega)
      norm_num at this
      omega
    rcases hmin with h1 | h1
    · rw [h1]; exact Nat.pow_le_pow_right (by norm_num) hk4
    · have : 2 ^ (round_power_2 x - 1) < 2 ^ k := lt_of_lt_of_le h1 hxk
      have := (Nat.pow_lt_pow_iff_right (by norm_num : 1 < 2)).mp this
      exact Nat.pow_le_pow_right (by norm_num) (by omega)

/-! ## The free-index halving loop of `xxfree` -/

/-- On each of the eight class sizes the halving loop of `xxfree` terminates
and yields the matching table index. -/
theorem class_index_pow : ∀ i < 8, class_index (2 ^ (i + 4)) = some i := by decide

/-! ## `ROUND_UP` to the page size -/

/-- `SIZE_T_MOD` as a numeral, for `omega`. -/
theorem SIZE_T_MOD_eq : SIZE_T_MOD = 18446744073709551616 := by norm_num [SIZE_T_MOD]

/-- `ROUND_UP size PAGE_SIZE`, for a `size_t` input, is a multiple of the page
size, equals the least page-size multiple `≥ size` reduced modulo `2 ^ 64`,
and covers `size` whenever it is nonzero (i.e. whenever the `size_t` addition
did not wrap to zero). -/
theorem ROUND_UP_page (size : Nat) (hsz : size < SIZE_T_MOD) :
    ROUND_UP size PAGE_SIZE % PAGE_SIZE = 0 ∧
    ROUND_UP size PAGE_SIZE = (4096 * ((size + 4095) / 4096)) % SIZE_T_MOD ∧
    (ROUND_UP size PAGE_SIZE ≠ 0 → size ≤ ROUND_UP size PAGE_SIZE) := by
  have hps : PAGE_SIZE = 4096 := rfl
  rw [SIZE_T_MOD_eq] at hsz
  rw [ROUND_UP, hps, SIZE_T_MOD_eq]
  by_cases h : size % 4096 = 0
  · simp only [if_pos h]
    omega
  · simp only [if_neg h]
    omega

/-- `4096 * ((s + 4095) / 4096)` really is the least multiple of the page size
that is `≥ s`. -/
theorem least_page_multiple (s : Nat) :
    s ≤ 4096 * ((s + 4095) / 4096) ∧
    4096 * ((s + 4095) / 4096) % 4096 = 0 ∧
    ∀ m, s ≤ m → m % 4096 = 0 → 4096 * ((s + 4095) / 4096) ≤ m := by
  refine ⟨by omega, by omega, fun m hm hmod => by omega⟩

/-! ## Page-base arithmetic -/

theorem PAGE_SIZE_eq : PAGE_SIZE = 4096 := rfl

theorem pg_base_le (a : Nat) : pg_base a ≤ a ∧ a < pg_base a + PAGE_SIZE := by
  simp only [pg_base, PAGE_SIZE_eq]
  omega

theorem pg_base_eq_of {b a : Nat} (hb : b % PAGE_SIZE = 0) (h1 : b ≤ a)
    (h2 : a < b + PAGE_SIZE) : pg_base a = b := by
  simp only [pg_base, PAGE_SIZE_eq] at *
  omega

/-- Each class size divides the page size (`4096 = 2 ^ 12`). -/
theorem class_dvd_page {k : Nat} (hk : k ≤ 12) : (2 : Nat) ^ k ∣ 4096 := by
  have h12 : (4096 : Nat) = 2 ^ 12 := by norm_num
  rw [h12]
  exact pow_dvd_pow 2 hk

/-- Truncating an in-page address down to a multiple of a block size that
divides the page size stays inside the page and lands on an aligned block
start (the `(intptr_t)ptr - ((intptr_t)ptr % block_size)` computation of
`xxfree`, line 177). -/
theorem block_start_facts {bs base ptr : Nat} (hbs : bs ∣ 4096) (hbs0 : 0 < bs)
    (hbase : base % 4096 = 0) (h1 : base ≤ ptr) (h2 : ptr < base + 4096) :
    (ptr - ptr % bs) % bs = 0 ∧ base ≤ ptr - ptr % bs ∧ ptr - ptr % bs ≤ ptr := by
  have hdvd : bs ∣ base := dvd_trans hbs (Nat.dvd_of_mod_eq_zero (by omega))
  have hmd := Nat.mod_def ptr bs
  have hml := Nat.mul_div_le ptr bs
  have heq : ptr - ptr % bs = bs * (ptr / bs) := by omega
  refine ⟨by rw [heq]; exact Nat.mul_mod_right bs _, ?_, by omega⟩
  have hb2 : base = bs * (base / bs) := by
    rw [Nat.mul_div_cancel' hdvd]
  rw [heq, hb2]
  exact Nat.mul_le_mul_left bs (Nat.div_le_div_right h1)

/-! ## Free-list table helpers -/

theorem getD_set_self (L : List (List Nat)) (i : Nat) (l : List Nat)
    (h : i < L.length) : (L.set i l).getD i [] = l := by
  simp [List.getD_eq_getElem?_getD, List.getElem?_set_self h]

theorem getD_set_ne (L : List (List Nat)) {i j : Nat} (l : List Nat)
    (h : i ≠ j) : (L.set i l).getD j [] = L.getD j [] := by
  simp [List.getD_eq_getElem?_getD, List.getElem?_set_ne h]

/-! ## `findPage` helpers -/

theorem findPage_mem {s : AllocState} {a : Nat} {pr : PageRec}
    (h : findPage s a = some pr) : pr ∈ s.pages ∧ pr.base = pg_base a := by
  refine ⟨List.mem_of_find?_eq_some h, ?_⟩
  have hp := List.find?_some h
  simpa using hp

theorem find?_base_eq_some {l : List PageRec} {pr : PageRec} {b : Nat}
    (hdist : l.Pairwise (fun p q => p.base ≠ q.base)) (hmem : pr ∈ l)
    (hb : pr.base = b) : l.find? (fun q => q.base = b) = some pr := by
  induction l with
  | nil => cases hmem
  | cons hd t ih =>
    rcases List.mem_cons.mp hmem with rfl | hm
    · exact List.find?_cons_of_pos _ (by simp [hb])
    · have hne : hd.base ≠ b := by
        have hx := (List.pairwise_cons.mp hdist).1 pr hm
        omega
      rw [List.find?_cons_of_neg _ (by simp [hne])]
      exact ih (List.pairwise_cons.mp hdist).2 hm

/-! ## The allocator invariant -/

theorem AllocInv.distinct_bases {s : AllocState} (h : AllocInv s) :
    s.pages.Pairwise (fun p q => p.base ≠ q.base) := by
  refine h.pages_sep.imp_of_mem ?_
  intro p q hp hq hle
  have hq' := (h.pages_ok q hq).2.2.1
  omega

theorem AllocInv.findPage_eq {s : AllocState} {pr : PageRec} {a : Nat} (h : AllocInv s)
    (hmem : pr ∈ s.pages) (hb : pr.base = pg_base a) : findPage s a = some pr :=
  find?_base_eq_some h.distinct_bases hmem hb

/-- The start-up state satisfies the invariant for any nonzero page-aligned
mapping region. -/
theorem AllocInv.init (base : Nat) (ok : Bool) (h0 : 0 < base)
    (hal : base % PAGE_SIZE = 0) : AllocInv (initState base ok) := by
  refine ⟨rfl, h0, hal, ?_, ?_, ?_, ?_⟩
  · intro pr hpr; cases hpr
  · intro pr hpr; cases hpr
  · exact List.Pairwise.nil
  · intro i hi a ha
    interval_cases i <;> simp [listsGet, initState] at ha

/-- A small page found for `ptr` has a class block size, and the block start
`xxfree` computes for `ptr` is an aligned address inside that very page. -/
theorem found_small_page_facts {s : AllocState} {ptr : Nat} {pr : PageRec}
    {bs w : Nat} (h : AllocInv s) (hfp : findPage s ptr = some pr)
    (hk : pr.kind = PageKind.small bs w) :
    ∃ i, i < 8 ∧ bs = 2 ^ (i + 4) ∧
      (ptr - ptr % bs) % bs = 0 ∧
      pr.base ≤ ptr - ptr % bs ∧ ptr - ptr % bs ≤ ptr ∧
      pg_base (ptr - ptr % bs) = pr.base := by
  obtain ⟨hmem, hbase⟩ := findPage_mem hfp
  obtain ⟨i, hi8, hbseq⟩ := h.pages_class pr hmem bs w hk
  obtain ⟨hb0, hbal, _, _⟩ := h.pages_ok pr hmem
  have hptr1 : pr.base ≤ ptr := hbase ▸ (pg_base_le ptr).1
  have hptr2 : ptr < pr.base + PAGE_SIZE := by
    have := (pg_base_le ptr).2
    omega
  have hbal' : pr.base % 4096 = 0 := by rw [PAGE_SIZE_eq] at hbal; exact hbal
  have hptr2' : ptr < pr.base + 4096 := by rw [PAGE_SIZE_eq] at hptr2; exact hptr2
  have hdvd : bs ∣ 4096 := by
    rw [hbseq]
    exact class_dvd_page (by omega)
  have hbs0 : 0 < bs := by
    rw [hbseq]
    exact Nat.pos_pow_of_pos _ (by norm_num)
  obtain ⟨ha1, ha2, ha3⟩ := block_start_facts hdvd hbs0 hbal' hptr1 hptr2'
  refine ⟨i, hi8, hbseq, ha1, ha2, ha3, ?_⟩
  exact pg_base_eq_of hbal ha2 (by omega)

/-- Truncating down to a block start never re-enters the header block: a
pointer at offset `≥ bs` within its page truncates to a block start at offset
`≥ bs`. -/
theorem block_start_beyond {bs base ptr : Nat} (hbs : bs ∣ 4096)
    (hbs0 : 0 < bs) (hbase : base % 4096 = 0) (h1 : base + bs ≤ ptr) :
    base + bs ≤ ptr - ptr % bs := by
  have hdvd : bs ∣ base := dvd_trans hbs (Nat.dvd_of_mod_eq_zero (by omega))
  have hmd := Nat.mod_def ptr bs
  have hml := Nat.mul_div_le ptr bs
  have heq : ptr - ptr % bs = bs * (ptr / bs) := by omega
  obtain ⟨k, hk⟩ : bs ∣ base + bs := dvd_add hdvd (dvd_refl bs)
  have hkle : k ≤ ptr / bs := by
    rw [Nat.le_div_iff_mul_le hbs0, mul_comm, ← hk]
    exact h1
  calc base + bs = bs * k := hk
  _ ≤ bs * (ptr / bs) := Nat.mul_le_mul_left bs hkle
  _ = ptr - ptr % bs := heq.symm

/-- A store whose target address is no page's base leaves every page header
unchanged. -/
theorem storeNextAt_id {pages : List PageRec} {p cur : Nat}
    (h : ∀ q ∈ pages, q.base ≠ p) : storeNextAt pages p cur = pages := by
  induction pages with
  | nil => rfl
  | cons q t ih =>
    rw [storeNextAt, List.map_cons, if_neg (h q (List.mem_cons_self _ _))]
    have ht := ih (fun r hr => h r (List.mem_cons_of_mem _ hr))
    rw [storeNextAt] at ht
    rw [ht]

/-- `xxfree` preserves the allocator invariant for every pointer that does not
lie inside its page's header block (block 0) — which covers every pointer into
a block the allocator ever hands out, since block 0 is never returned.
(`NULL`, unmapped and untagged pointers are exact no-ops and need no side
condition.)  Freeing a block-0 interior pointer instead aliases the intrusive
`p->next` store onto the header and clobbers the tag; see
`claim_C5_counterexample`. -/
theorem allocInv_xxfree_safe {s : AllocState} (h : AllocInv s) (ptr : Nat)
    (hoff : ∀ pr, findPage s ptr = some pr →
      pr.base + headerSize pr.kind ≤ ptr) :
    AllocInv (xxfree s ptr) := by
  rw [xxfree]
  split
  · exact h
  next hptr =>
    cases hfp : findPage s ptr with
    | none => exact h
    | some pr =>
      simp only []
      split
      · exact h
      next hmag =>
        rw [Decidable.not_not] at hmag
        -- the page must be a tagged small page: large pages carry magic word 0
        cases hk : pr.kind with
        | large len =>
          rw [hk] at hmag
          exact absurd hmag (by norm_num [pageMagic, MAGIC])
        | small bs w =>
          rw [hk] at hmag
          simp only [pageMagic] at hmag
          subst hmag
          have husz : xxmalloc_usable_size s ptr = bs := by
            simp [xxmalloc_usable_size, hptr, hfp, hk, pageMagic, headerSize]
          rw [husz]
          obtain ⟨i, hi8, hbseq, hal, hge, hle, hpg⟩ :=
            found_small_page_facts h hfp hk
          obtain ⟨hmem, hbase⟩ := findPage_mem hfp
          split
          · exact h
          next hbs0 =>
            have hci : class_index bs = some i := by
              rw [hbseq]
              exact class_index_pow i hi8
            rw [hci]
            -- the freed block start lies strictly beyond the header block,
            -- so the p->next store touches no page base
            have hoffp := hoff pr hfp
            rw [hk] at hoffp
            simp only [headerSize] at hoffp
            have hbal : pr.base % 4096 = 0 := by
              have := (h.pages_ok pr hmem).2.1
              rw [PAGE_SIZE_eq] at this
              exact this
            have hbspos : 0 < bs := by
              rw [hbseq]
              exact Nat.pos_pow_of_pos _ (by norm_num)
            have hdvd : bs ∣ 4096 := by
              rw [hbseq]
              exact class_dvd_page (by omega)
            have hbeyond : pr.base + bs ≤ ptr - ptr % bs :=
              block_start_beyond hdvd hbspos hbal hoffp
            have hptrlt : ptr < pr.base + 4096 := by
              have h1 := (pg_base_le ptr).2
              rw [PAGE_SIZE_eq] at h1
              omega
            have hnb : ∀ q ∈ s.pages, q.base ≠ ptr - ptr % bs := by
              intro q hq hqeq
              have hqal := (h.pages_ok q hq).2.1
              rw [PAGE_SIZE_eq] at hqal
              omega
            simp only []
            rw [storeNextAt_id hnb]
            refine ⟨?_, h.nbPos, h.nbAligned, h.pages_ok, h.pages_class,
              h.pages_sep, ?_⟩
            · simp [List.length_set, h.len8]
            · intro j hj a ha
              simp only [listsGet] at ha
              by_cases hji : j = i
              · rw [hji] at hj ha ⊢
                rw [getD_set_self _ _ _ (by rw [h.len8]; exact hi8)] at ha
                rcases List.mem_cons.mp ha with rfl | hmem'
                · exact ⟨by rw [← hbseq]; exact hal, pr, hmem, hpg.symm, hbseq ▸ hk⟩
                · exact h.lists_ok i hi8 a hmem'
              · rw [getD_set_ne _ _ (fun hx => hji hx.symm)] at ha
                exact h.lists_ok j hj a ha

/-- Popping the head of a free list preserves the invariant. -/
theorem allocInv_pop_head {s : AllocState} (h : AllocInv s) (idx : Nat)
    (hidx : idx < 8) : AllocInv (pop_head s idx).state := by
  rw [pop_head]
  cases hl : listsGet s idx with
  | nil => exact h
  | cons b rest =>
    refine ⟨?_, h.nbPos, h.nbAligned, h.pages_ok, h.pages_class, h.pages_sep, ?_⟩
    · simp [MallocResult.state, List.length_set, h.len8]
    · intro j hj a ha
      simp only [MallocResult.state, listsGet] at ha
      by_cases hji : j = idx
      · rw [hji] at hj ha ⊢
        rw [getD_set_self _ _ _ (by rw [h.len8]; exact hidx)] at ha
        exact h.lists_ok idx hidx a (by rw [hl]; exact List.mem_cons_of_mem _ ha)
      · rw [getD_set_ne _ _ (fun hx => hji hx.symm)] at ha
        exact h.lists_ok j hj a ha

/-- Carving one fresh page for class exponent `li` (the state `xxmalloc`
builds after a successful `mmap` on a free-list miss) preserves the
invariant. -/
theorem allocInv_carve {s : AllocState} (h : AllocInv s) {li : Nat}
    (h4 : 4 ≤ li) (h11 : li ≤ 11) :
    AllocInv (carve_page { s with nextBase := s.nextBase + PAGE_SIZE } li s.nextBase) := by
  have hE : li - 4 + 4 = li := Nat.sub_add_cancel h4
  have hbs0 : 0 < (2 : Nat) ^ li := Nat.pos_pow_of_pos _ (by norm_num)
  have hdvd : (2 : Nat) ^ li ∣ 4096 := class_dvd_page (by omega)
  have hnmul : PAGE_SIZE / 2 ^ li * 2 ^ li = PAGE_SIZE := by
    rw [PAGE_SIZE_eq]
    exact Nat.div_mul_cancel hdvd
  have hnbal : s.nextBase % 4096 = 0 := by
    have := h.nbAligned
    rw [PAGE_SIZE_eq] at this
    exact this
  rw [carve_page]
  refine ⟨?_, ?_, ?_, ?_, ?_, ?_, ?_⟩
  · simp [List.length_set, h.len8]
  · have := h.nbPos
    simp only []
    omega
  · have := h.nbAligned
    simp only [PAGE_SIZE_eq] at *
    omega
  · intro pr hpr
    rcases List.mem_cons.mp hpr with rfl | hpr'
    · refine ⟨h.nbPos, h.nbAligned, ?_, le_refl _⟩
      simp [pageLen, PAGE_SIZE_eq]
    · have hold := h.pages_ok pr hpr'
      refine ⟨hold.1, hold.2.1, hold.2.2.1, ?_⟩
      show pr.base + pageLen pr.kind ≤ s.nextBase + PAGE_SIZE
      have := hold.2.2.2
      omega
  · intro pr hpr bs w hbs
    rcases List.mem_cons.mp hpr with rfl | hpr'
    · simp only [PageKind.small.injEq] at hbs
      exact ⟨li - 4, by omega, by rw [hE, ← hbs.1]⟩
    · exact h.pages_class pr hpr' bs w hbs
  · refine List.pairwise_cons.mpr ⟨?_, h.pages_sep⟩
    intro q hq
    exact (h.pages_ok q hq).2.2.2
  · intro j hj a ha
    simp only [listsGet] at ha
    by_cases hji : j = li - 4
    · rw [hji] at hj ha ⊢
      rw [getD_set_self _ _ _ (by rw [h.len8]; omega)] at ha
      obtain ⟨jj, hjj, rfl⟩ := List.mem_map.mp ha
      rw [List.mem_range] at hjj
      have hup : (jj + 1) * 2 ^ li ≤ PAGE_SIZE - 2 ^ li := by
        have h1 : jj + 1 ≤ PAGE_SIZE / 2 ^ li - 1 := by omega
        calc (jj + 1) * 2 ^ li ≤ (PAGE_SIZE / 2 ^ li - 1) * 2 ^ li :=
              Nat.mul_le_mul_right _ h1
        _ = PAGE_SIZE / 2 ^ li * 2 ^ li - 2 ^ li := by
              rw [Nat.sub_mul, one_mul]
        _ = PAGE_SIZE - 2 ^ li := by rw [hnmul]
      have hps : (2 : Nat) ^ li ≤ PAGE_SIZE := by
        rw [PAGE_SIZE_eq]
        exact Nat.le_of_dvd (by norm_num) hdvd
      have hlt : (jj + 1) * 2 ^ li < PAGE_SIZE := by omega
      constructor
      · rw [hE, Nat.add_mul_mod_self_right]
        exact Nat.mod_eq_zero_of_dvd
          (dvd_trans hdvd (Nat.dvd_of_mod_eq_zero hnbal))
      · refine ⟨⟨s.nextBase, .small (2 ^ li) MAGIC⟩, List.mem_cons_self _ _, ?_, by rw [hE]⟩
        show s.nextBase = pg_base (s.nextBase + (jj + 1) * 2 ^ li)
        rw [pg_base_eq_of h.nbAligned (Nat.le_add_right _ _) (by omega)]
    · rw [getD_set_ne _ _ (fun hx => hji hx.symm)] at ha
      obtain ⟨hal, pr, hmem, hb, hk⟩ := h.lists_ok j hj a ha
      exact ⟨hal, pr, List.mem_cons_of_mem _ hmem, hb, hk⟩

/-- The state built by the large-object path after a successful `mmap` of
`len` bytes satisfies the invariant. -/
theorem allocInv_large {s : AllocState} (h : AllocInv s) {len : Nat}
    (hlen0 : len ≠ 0) (hmod : len % PAGE_SIZE = 0) :
    AllocInv { s with nextBase := s.nextBase + len,
                      pages := ⟨s.nextBase, PageKind.large len⟩ :: s.pages } := by
  refine ⟨h.len8, ?_, ?_, ?_, ?_, ?_, ?_⟩
  · show 0 < s.nextBase + len
    have := h.nbPos
    omega
  · show (s.nextBase + len) % PAGE_SIZE = 0
    have hnb := h.nbAligned
    rw [PAGE_SIZE_eq] at hnb hmod ⊢
    omega
  · intro pr hpr
    rcases List.mem_cons.mp hpr with rfl | hpr'
    · refine ⟨h.nbPos, h.nbAligned, ?_, ?_⟩
      · show 0 < pageLen (PageKind.large len)
        simpa [pageLen] using Nat.pos_of_ne_zero hlen0
      · show s.nextBase + pageLen (PageKind.large len) ≤ s.nextBase + len
        simp [pageLen]
    · have hold := h.pages_ok pr hpr'
      refine ⟨hold.1, hold.2.1, hold.2.2.1, ?_⟩
      show pr.base + pageLen pr.kind ≤ s.nextBase + len
      have := hold.2.2.2
      omega
  · intro pr hpr bs w hbs
    rcases List.mem_cons.mp hpr with rfl | hpr'
    · simp at hbs
    · exact h.pages_class pr hpr' bs w hbs
  · refine List.pairwise_cons.mpr ⟨?_, h.pages_sep⟩
    intro q hq
    exact (h.pages_ok q hq).2.2.2
  · intro j hj a ha
    obtain ⟨hal, pr, hmem, hb, hk⟩ := h.lists_ok j hj a ha
    exact ⟨hal, pr, List.mem_cons_of_mem _ hmem, hb, hk⟩

/-- `xxmalloc` preserves the allocator invariant, both when it returns and in
the state left behind at a fatal exit. -/
theorem allocInv_xxmalloc {s : AllocState} (h : AllocInv s) (size : Nat)
    (hsz : size < SIZE_T_MOD) : AllocInv (xxmalloc s size).state := by
  rw [xxmalloc]
  split
  · -- large path
    next hlarge =>
    obtain ⟨hmod, _, _⟩ := ROUND_UP_page size hsz
    by_cases hok : s.mmapOk = true ∧ ROUND_UP size PAGE_SIZE ≠ 0
    · simp only [AllocState.mmap]
      rw [if_pos hok]
      exact allocInv_large h hok.2 hmod
    · simp only [AllocState.mmap]
      rw [if_neg hok]
      exact h
  · -- small path
    next hsmall =>
    have hsz' : size ≤ 2048 := by omega
    obtain ⟨h4, h11, _, _⟩ := round_power_2_spec size hsz'
    by_cases hempty : listsGet s (round_power_2 size - 4) = []
    · -- free list empty: mmap a page, carve it, then pop
      rw [if_pos hempty]
      by_cases hok : s.mmapOk = true ∧ PAGE_SIZE ≠ 0
      · simp only [AllocState.mmap]
        rw [if_pos hok]
        exact allocInv_pop_head (allocInv_carve h h4 h11)
          (round_power_2 size - 4) (by omega)
      · simp only [AllocState.mmap]
        rw [if_neg hok]
        exact h
    · -- free list non-empty: pop directly
      rw [if_neg hempty]
      exact allocInv_pop_head h (round_power_2 size - 4) (by omega)

/-! ## Characterizing successful allocations -/

/-- A successful `xxmalloc` returns a well-formed state. -/
theorem allocInv_of_ok {s : AllocState} {size ptr : Nat} {s' : AllocState}
    (h : AllocInv s) (hsz : size < SIZE_T_MOD)
    (hok : xxmalloc s size = MallocResult.ok ptr s') : AllocInv s' := by
  have hh := allocInv_xxmalloc h size hsz
  rw [hok] at hh
  exact hh

/-- `pop_head` on a non-empty list returns its head (a member of the list)
and does not touch the pages. -/
theorem pop_head_ok {s : AllocState} {idx ptr : Nat} {s' : AllocState}
    (hne : listsGet s idx ≠ [])
    (hok : pop_head s idx = MallocResult.ok ptr s') :
    ptr ∈ listsGet s idx ∧ s'.pages = s.pages := by
  rw [pop_head] at hok
  cases hl : listsGet s idx with
  | nil => exact absurd hl hne
  | cons b rest =>
    rw [hl] at hok
    cases hok
    exact ⟨by simp [hl], rfl⟩

/-- A block sitting on free list `idx` of a well-formed state is nonzero,
aligned to its class size, and `findPage` (in any later state with the same
pages) locates its page: a small page of that class. -/
theorem small_block_facts {sPre s' : AllocState} {idx ptr : Nat}
    (hinv : AllocInv sPre) (hidx : idx < 8) (hmem : ptr ∈ listsGet sPre idx)
    (hinv' : AllocInv s') (hpages : s'.pages = sPre.pages) :
    0 < ptr ∧ ptr % 2 ^ (idx + 4) = 0 ∧
      findPage s' ptr = some ⟨pg_base ptr, PageKind.small (2 ^ (idx + 4)) MAGIC⟩ := by
  obtain ⟨hal, pr, hprm, hprb, hprk⟩ := hinv.lists_ok idx hidx ptr hmem
  obtain ⟨hb0, -, -, -⟩ := hinv.pages_ok pr hprm
  refine ⟨?_, hal, ?_⟩
  · have h1 : 0 < pg_base ptr := hprb ▸ hb0
    have h2 := (pg_base_le ptr).1
    omega
  · obtain ⟨prb, prk⟩ := pr
    simp only [] at hprb hprk
    subst hprb
    subst hprk
    exact hinv'.findPage_eq (hpages ▸ hprm) rfl

/-- The small path of `xxmalloc`: the returned pointer is a nonzero,
class-aligned address whose page is a small page of the computed class. -/
theorem xxmalloc_small_spec {s : AllocState} {size ptr : Nat} {s' : AllocState}
    (h : AllocInv s) (hsz : size ≤ 2048)
    (hok : xxmalloc s size = MallocResult.ok ptr s') :
    0 < ptr ∧ ptr % 2 ^ round_power_2 size = 0 ∧ AllocInv s' ∧
      findPage s' ptr =
        some ⟨pg_base ptr, PageKind.small (2 ^ round_power_2 size) MAGIC⟩ := by
  obtain ⟨h4, h11, -, -⟩ := round_power_2_spec size hsz
  have hszlt : size < SIZE_T_MOD := by rw [SIZE_T_MOD_eq]; omega
  have hinv' : AllocInv s' := allocInv_of_ok h hszlt hok
  have hE : round_power_2 size - 4 + 4 = round_power_2 size := by omega
  rw [xxmalloc, if_neg (by omega : ¬ 2048 < size)] at hok
  by_cases hempty : listsGet s (round_power_2 size - 4) = []
  · rw [if_pos hempty] at hok
    by_cases hmm : s.mmapOk = true ∧ PAGE_SIZE ≠ 0
    · simp only [AllocState.mmap] at hok
      rw [if_pos hmm] at hok
      have hinv2 : AllocInv (carve_page { s with nextBase := s.nextBase + PAGE_SIZE }
          (round_power_2 size) s.nextBase) := allocInv_carve h h4 h11
      have hne2 : listsGet (carve_page { s with nextBase := s.nextBase + PAGE_SIZE }
          (round_power_2 size) s.nextBase) (round_power_2 size - 4) ≠ [] := by
        rw [carve_page]
        simp only [listsGet]
        rw [getD_set_self _ _ _ (by simpa [h.len8] using (by omega : round_power_2 size - 4 < 8))]
        have hn2 : 2 ≤ PAGE_SIZE / 2 ^ round_power_2 size := by
          rw [PAGE_SIZE_eq]
          have hle : (2 : Nat) ^ round_power_2 size ≤ 2 ^ 11 :=
            Nat.pow_le_pow_right (by norm_num) h11
          have hpos : (0 : Nat) < 2 ^ round_power_2 size :=
            Nat.pos_pow_of_pos _ (by norm_num)
          have : 2 * 2 ^ round_power_2 size ≤ 4096 := by
            calc 2 * 2 ^ round_power_2 size ≤ 2 * 2 ^ 11 := by omega
            _ = 4096 := by norm_num
          exact (Nat.le_div_iff_mul_le hpos).mpr this
        intro hnil
        have := congrArg List.length hnil
        simp [List.length_map, List.length_range] at this
        omega
      obtain ⟨hmem2, hpages2⟩ := pop_head_ok hne2 hok
      obtain ⟨hp0, hal, hfp⟩ :=
        small_block_facts hinv2 (by omega) hmem2 hinv' hpages2
      rw [hE] at hal hfp
      exact ⟨hp0, hal, hinv', hfp⟩
    · simp only [AllocState.mmap] at hok
      rw [if_neg hmm] at hok
      cases hok
  · rw [if_neg hempty] at hok
    obtain ⟨hmem1, hpages1⟩ := pop_head_ok hempty hok
    obtain ⟨hp0, hal, hfp⟩ :=
      small_block_facts h (by omega) hmem1 hinv' hpages1
    rw [hE] at hal hfp
    exact ⟨hp0, hal, hinv', hfp⟩

/-- The large path of `xxmalloc`: on success the pointer is the fresh mapping
base and the state gains exactly one `large` page of the rounded length. -/
theorem xxmalloc_large_spec {s : AllocState} {size ptr : Nat} {s' : AllocState}
    (hlarge : 2048 < size)
    (hok : xxmalloc s size = MallocResult.ok ptr s') :
    ptr = s.nextBase ∧ s.mmapOk = true ∧ ROUND_UP size PAGE_SIZE ≠ 0 ∧
      s' = { s with nextBase := s.nextBase + ROUND_UP size PAGE_SIZE,
                    pages := ⟨s.nextBase, PageKind.large (ROUND_UP size PAGE_SIZE)⟩
                      :: s.pages } := by
  rw [xxmalloc, if_pos hlarge] at hok
  by_cases hmm : s.mmapOk = true ∧ ROUND_UP size PAGE_SIZE ≠ 0
  · simp only [AllocState.mmap] at hok
    rw [if_pos hmm] at hok
    cases hok
    exact ⟨rfl, hmm.1, hmm.2, rfl⟩
  · simp only [AllocState.mmap] at hok
    rw [if_neg hmm] at hok
    cases hok

/-- Every class exponent `li ≤ 11` leaves at least two blocks per page. -/
theorem two_le_blocks {li : Nat} (h11 : li ≤ 11) : 2 ≤ PAGE_SIZE / 2 ^ li := by
  rw [PAGE_SIZE_eq]
  have hpos : (0 : Nat) < 2 ^ li := Nat.pos_pow_of_pos _ (by norm_num)
  have hle : (2 : Nat) ^ li ≤ 2 ^ 11 := Nat.pow_le_pow_right (by norm_num) h11
  refine (Nat.le_div_iff_mul_le hpos).mpr ?_
  calc 2 * 2 ^ li ≤ 2 * 2 ^ 11 := by omega
  _ = 4096 := by norm_num

/-- `pop_head` never terminates the process. -/
theorem pop_head_ne_exited (s : AllocState) (idx : Nat) (msg : LogMsg)
    (code : Nat) (s'' : AllocState) :
    pop_head s idx ≠ MallocResult.exited msg code s'' := by
  rw [pop_head]
  cases listsGet s idx <;> simp

/-- Whenever `xxmalloc` exits, it does so with status 2 and with the
size-class table (indeed the whole allocator state) exactly as it was at
entry. -/
theorem xxmalloc_exited_spec {st : AllocState} {size : Nat} {msg : LogMsg}
    {code : Nat} {s'' : AllocState}
    (hex : xxmalloc st size = MallocResult.exited msg code s'') :
    code = 2 ∧ s'' = st := by
  rw [xxmalloc] at hex
  by_cases hlar : 2048 < size
  · rw [if_pos hlar] at hex
    by_cases hmm : st.mmapOk = true ∧ ROUND_UP size PAGE_SIZE ≠ 0
    · simp only [AllocState.mmap] at hex
      rw [if_pos hmm] at hex
      cases hex
    · simp only [AllocState.mmap] at hex
      rw [if_neg hmm] at hex
      cases hex
      exact ⟨rfl, rfl⟩
  · rw [if_neg hlar] at hex
    by_cases hempty : listsGet st (round_power_2 size - 4) = []
    · rw [if_pos hempty] at hex
      by_cases hmm : st.mmapOk = true ∧ PAGE_SIZE ≠ 0
      · simp only [AllocState.mmap] at hex
        rw [if_pos hmm] at hex
        exact absurd hex (pop_head_ne_exited _ _ _ _ _)
      · simp only [AllocState.mmap] at hex
        rw [if_neg hmm] at hex
        cases hex
        exact ⟨rfl, rfl⟩
    · rw [if_neg hempty] at hex
      exact absurd hex (pop_head_ne_exited _ _ _ _ _)

/-- A well-formed state satisfies the spec's free-list/page agreement
invariant. -/
theorem allocInv_classListInv {s : AllocState} (h : AllocInv s) :
    ClassListInv s := by
  intro i hi a ha
  obtain ⟨hal, pr, hm, hb, hk⟩ := h.lists_ok i hi a ha
  refine ⟨pr, h.findPage_eq hm hb, ?_, ?_⟩ <;> rw [hk] <;> rfl

/-- **C5** counterexample: the claimed invariant is *not* preserved by every
release.  From the reachable, well-formed state after `xxmalloc 2000` (one
carved 2048-byte-class page, all lists empty), releasing the page base
address 4096 — a pointer into block 0, the header block — passes the tag
check, truncates to the block start 4096, pushes the header block onto
`lists[7]`, and the intrusive `p->next` store (src/allocator.c line 189)
overwrites the header's magic word with `NULL` (0): the resulting state has a
node on `lists[7]` whose page no longer carries the ownership tag. -/
theorem claim_C5_counterexample :
    xxmalloc (initState 4096 true) 2000 =
      MallocResult.ok 6144
        { lists := [[], [], [], [], [], [], [], []],
          pages := [⟨4096, PageKind.small 2048 MAGIC⟩],
          nextBase := 8192, mmapOk := true } ∧
    xxfree { lists := [[], [], [], [], [], [], [], []],
             pages := [⟨4096, PageKind.small 2048 MAGIC⟩],
             nextBase := 8192, mmapOk := true } 4096 =
      { lists := [[], [], [], [], [], [], [], [4096]],
        pages := [⟨4096, PageKind.small 2048 0⟩],
        nextBase := 8192, mmapOk := true } ∧
    ¬ ClassListInv
      { lists := [[], [], [], [], [], [], [], [4096]],
        pages := [⟨4096, PageKind.small 2048 0⟩],
        nextBase := 8192, mmapOk := true } := by
  refine ⟨by decide, by decide, ?_⟩
  intro h
  obtain ⟨pr, hfp, hmag, -⟩ := h 7 (by norm_num) 4096 (by decide)
  have hfind : findPage
      { lists := [[], [], [], [], [], [], [], [4096]],
        pages := [⟨4096, PageKind.small 2048 0⟩],
        nextBase := 8192, mmapOk := (true : Bool) } 4096 =
      some ⟨4096, PageKind.small 2048 0⟩ := by decide
  rw [hfind] at hfp
  cases hfp
  exact absurd hmag (by decide)

/-- **C5** (amended): for each class index `i < 8`, every node reachable from
the free-list head `lists[i]` lies in a page whose header carries the
ownership tag and records block size `2 ^ (i + 4)`; this invariant is
preserved by every `xxmalloc` (returning or exiting) and by every `xxfree`
whose pointer does not lie inside its page's header block (block 0) — which
covers every pointer into a block the allocator ever handed out, block 0
never being returned.  A release of a block-0 interior pointer instead
clobbers the header's tag word through the intrusive `next` store and breaks
the invariant (see `claim_C5_counterexample`). -/
theorem claim_C5_class_agreement {st : AllocState} (hinv : AllocInv st)
    (size ptr : Nat) (hsz : size < SIZE_T_MOD)
    (hoff : ∀ pr, findPage st ptr = some pr →
      pr.base + headerSize pr.kind ≤ ptr) :
    ClassListInv st ∧
    ClassListInv (xxmalloc st size).state ∧
    ClassListInv (xxfree st ptr) :=
  ⟨allocInv_classListInv hinv,
   allocInv_classListInv (allocInv_xxmalloc hinv size hsz),
   allocInv_classListInv (allocInv_xxfree_safe hinv ptr hoff)⟩

/-- **C5** witness: the invariant holds concretely through an
allocate/release round trip from a reachable state: releasing the handed-out
block 6144 (offset 2048, past the header block) keeps every list node tagged
and sized. -/
theorem claim_C5_class_agreement_witness :
    ClassListInv
      { lists := [[], [], [], [], [], [], [], []],
        pages := [⟨4096, PageKind.small 2048 MAGIC⟩],
        nextBase := 8192, mmapOk := true } ∧
    ClassListInv (xxmalloc
      { lists := [[], [], [], [], [], [], [], []],
        pages := [⟨4096, PageKind.small 2048 MAGIC⟩],
        nextBase := 8192, mmapOk := true } 2000).state ∧
    ClassListInv (xxfree
      { lists := [[], [], [], [], [], [], [], []],
        pages := [⟨4096, PageKind.small 2048 MAGIC⟩],
        nextBase := 8192, mmapOk := true } 6144) := by
  have hinv : AllocInv
      { lists := [[], [], [], [], [], [], [], []],
        pages := [⟨4096, PageKind.small 2048 MAGIC⟩],
        nextBase := 8192, mmapOk := true } := by
    refine ⟨rfl, by norm_num, by decide, ?_, ?_, ?_, ?_⟩
    · intro pr hpr
      rw [List.mem_singleton] at hpr
      subst hpr
      refine ⟨by norm_num, by decide, by decide, by decide⟩
    · intro pr hpr bs w hbs
      rw [List.mem_singleton] at hpr
      subst hpr
      simp only [PageKind.small.injEq] at hbs
      exact ⟨7, by norm_num, by rw [← hbs.1]; norm_num⟩
    · exact List.pairwise_singleton _ _
    · intro i hi a ha
      interval_cases i <;> simp [listsGet] at ha
  have hoff : ∀ pr, findPage
      { lists := [[], [], [], [], [], [], [], []],
        pages := [⟨4096, PageKind.small 2048 MAGIC⟩],
        nextBase := 8192, mmapOk := (true : Bool) } 6144 = some pr →
      pr.base + headerSize pr.kind ≤ 6144 := by
    intro pr hpr
    have hfind : findPage
        { lists := [[], [], [], [], [], [], [], []],
          pages := [⟨4096, PageKind.small 2048 MAGIC⟩],
          nextBase := 8192, mmapOk := (true : Bool) } 6144 =
        some ⟨4096, PageKind.small 2048 MAGIC⟩ := by decide
    rw [hfind] at hpr
    cases hpr
    decide
  exact claim_C5_class_agreement hinv 2000 6144
    (by rw [SIZE_T_MOD_eq]; norm_num) hoff

/-- **C10**: every free-list table access is in bounds: `round_power_2` maps
every size `≤ 2048` into `[4, 11]` (so `lists[round_power_2 size - 4]` has
index in `[0, 7]`), and on each of the eight class sizes the halving loop of
`xxfree` terminates with an index in `[0, 7]`. -/
theorem claim_C10_index_bounds :
    (∀ s, s ≤ 2048 → 4 ≤ round_power_2 s ∧ round_power_2 s ≤ 11 ∧
      round_power_2 s - 4 < 8) ∧
    (∀ bs, (∃ i, i < 8 ∧ bs = 2 ^ (i + 4)) →
      ∃ j, class_index bs = some j ∧ j < 8) := by
  constructor
  · intro s hs
    obtain ⟨h1, h2, -, -⟩ := round_power_2_spec s hs
    exact ⟨h1, h2, by omega⟩
  · rintro bs ⟨i, hi, rfl⟩
    exact ⟨i, class_index_pow i hi, hi⟩

/-- **C10** witness: concrete instances of both bounds. -/
theorem claim_C10_index_bounds_witness :
    (4 ≤ round_power_2 2048 ∧ round_power_2 2048 ≤ 11 ∧
      round_power_2 2048 - 4 < 8) ∧
    (∃ j, class_index 2048 = some j ∧ j < 8) :=
  ⟨claim_C10_index_bounds.1 2048 (by norm_num),
   claim_C10_index_bounds.2 2048 ⟨7, by norm_num, by norm_num⟩⟩

/-- **C7**: `xxfree` of the null pointer is a no-op and `xxmalloc_usable_size`
of null is 0; and for any pointer whose containing page does not begin with
the ownership tag, `xxfree` leaves the entire allocator state (free-list
table, free lists, page headers) unchanged and `xxmalloc_usable_size`
returns 0. -/
theorem claim_C7_invalid_noop (st : AllocState) (ptr : Nat) :
    xxfree st 0 = st ∧ xxmalloc_usable_size st 0 = 0 ∧
    (∀ pr, findPage st ptr = some pr → pageMagic pr.kind ≠ MAGIC →
      xxfree st ptr = st ∧ xxmalloc_usable_size st ptr = 0) := by
  refine ⟨by rw [xxfree, if_pos rfl], by rw [xxmalloc_usable_size, if_pos rfl], ?_⟩
  intro pr hfp hmag
  by_cases hptr : ptr = 0
  · subst hptr
    exact ⟨by rw [xxfree, if_pos rfl], by rw [xxmalloc_usable_size, if_pos rfl]⟩
  · constructor
    · rw [xxfree, if_neg hptr, hfp]
      simp [hmag]
    · rw [xxmalloc_usable_size, if_neg hptr, hfp]
      simp [hmag]

/-- **C7** witness: after a large allocation (whose page carries no tag),
releasing its pointer is a no-op and its usable size is 0. -/
theorem claim_C7_invalid_noop_witness :
    xxfree { lists := [[], [], [], [], [], [], [], []],
             pages := [⟨4096, PageKind.large 4096⟩],
             nextBase := 8192, mmapOk := true } 4096 =
      { lists := [[], [], [], [], [], [], [], []],
        pages := [⟨4096, PageKind.large 4096⟩],
        nextBase := 8192, mmapOk := true } ∧
    xxmalloc_usable_size
      { lists := [[], [], [], [], [], [], [], []],
        pages := [⟨4096, PageKind.large 4096⟩],
        nextBase := 8192, mmapOk := true } 4096 = 0 := by
  exact (claim_C7_invalid_noop _ 4096).2.2 ⟨4096, PageKind.large 4096⟩
    (by decide) (by decide)

/-- **C1**: for every request size `size ≤ 2048` (zero included), a successful
allocation draws from the size class equal to the smallest power of two
`≥ max size 16` (boundary sizes map to their own class), and
`xxmalloc_usable_size` on the returned pointer equals that class size, which
is `≥ size`. -/
theorem claim_C1_small_usable_size {st st' : AllocState} {size ptr : Nat}
    (hinv : AllocInv st) (hsz : size ≤ 2048)
    (hok : xxmalloc st size = MallocResult.ok ptr st') :
    xxmalloc_usable_size st' ptr = 2 ^ round_power_2 size ∧
    size ≤ xxmalloc_usable_size st' ptr ∧
    IsLeastPow2Ge (max size 16) (xxmalloc_usable_size st' ptr) := by
  obtain ⟨hp0, hal, hinv', hfp⟩ := xxmalloc_small_spec hinv hsz hok
  have hp0' : ¬ ptr = 0 := by omega
  have husz : xxmalloc_usable_size st' ptr = 2 ^ round_power_2 size := by
    simp [xxmalloc_usable_size, hp0', hfp, pageMagic, headerSize]
  obtain ⟨-, -, hcov, -⟩ := round_power_2_spec size hsz
  refine ⟨husz, ?_, ?_⟩
  · rw [husz]
    exact hcov
  · rw [husz]
    exact round_power_2_least size hsz

/-- **C1** witness: allocating 2000 bytes from a fresh state lands in the
2048 class. -/
theorem claim_C1_small_usable_size_witness :
    ∃ ptr st', xxmalloc (initState 4096 true) 2000 = MallocResult.ok ptr st' ∧
      xxmalloc_usable_size st' ptr = 2 ^ round_power_2 2000 ∧
      2000 ≤ xxmalloc_usable_size st' ptr ∧
      IsLeastPow2Ge (max 2000 16) (xxmalloc_usable_size st' ptr) := by
  have hok : xxmalloc (initState 4096 true) 2000 =
      MallocResult.ok 6144 (xxmalloc (initState 4096 true) 2000).state := by
    decide
  have hc := claim_C1_small_usable_size
    (AllocInv.init 4096 true (by norm_num) (by decide)) (by norm_num) hok
  exact ⟨6144, _, hok, hc.1, hc.2.1, hc.2.2⟩

/-- **C6**: alignment postcondition of `xxmalloc`: a returned small pointer is
congruent to 0 modulo its class block size `2 ^ round_power_2 size`, and a
returned large pointer is page-aligned. -/
theorem claim_C6_alignment {st st' : AllocState} {size ptr : Nat}
    (hinv : AllocInv st)
    (hok : xxmalloc st size = MallocResult.ok ptr st') :
    (size ≤ 2048 → ptr % 2 ^ round_power_2 size = 0) ∧
    (2048 < size → ptr % PAGE_SIZE = 0) := by
  constructor
  · intro hs
    exact (xxmalloc_small_spec hinv hs hok).2.1
  · intro hl
    obtain ⟨hptr, -, -, -⟩ := xxmalloc_large_spec hl hok
    rw [hptr]
    exact hinv.nbAligned

/-- **C6** witness: one small and one large allocation, both aligned. -/
theorem claim_C6_alignment_witness :
    (∃ ptr st', xxmalloc (initState 4096 true) 2000 = MallocResult.ok ptr st' ∧
      ptr % 2 ^ round_power_2 2000 = 0) ∧
    (∃ ptr st', xxmalloc (initState 4096 true) 3000 = MallocResult.ok ptr st' ∧
      ptr % PAGE_SIZE = 0) := by
  constructor
  · have hok : xxmalloc (initState 4096 true) 2000 =
        MallocResult.ok 6144 (xxmalloc (initState 4096 true) 2000).state := by
      decide
    exact ⟨6144, _, hok,
      (claim_C6_alignment (AllocInv.init 4096 true (by norm_num) (by decide)) hok).1
        (by norm_num)⟩
  · have hok : xxmalloc (initState 4096 true) 3000 =
        MallocResult.ok 4096 (xxmalloc (initState 4096 true) 3000).state := by
      decide
    exact ⟨4096, _, hok,
      (claim_C6_alignment (AllocInv.init 4096 true (by norm_num) (by decide)) hok).2
        (by norm_num)⟩

/-- **C8**: `xxmalloc` either returns a non-null pointer or terminates the
process with the distinguished status 2 after logging, leaving the size-class
table and all state exactly as at entry (no retry, no fallback, no partial
mutation); in particular it never reports exhaustion by returning the null
pointer.  Moreover, when the `mmap` oracle refuses memory and a mapping is
actually needed (large request, or small request with an empty class list),
the call does exit. -/
theorem claim_C8_mapping_failure_fatal {st : AllocState} (hinv : AllocInv st)
    (size : Nat) (hsz : size < SIZE_T_MOD) :
    ((∃ ptr st', xxmalloc st size = MallocResult.ok ptr st' ∧ ptr ≠ 0) ∨
      (∃ msg, xxmalloc st size = MallocResult.exited msg 2 st)) ∧
    (st.mmapOk = false →
      (2048 < size ∨ listsGet st (round_power_2 size - 4) = []) →
      ∃ msg, xxmalloc st size = MallocResult.exited msg 2 st) := by
  constructor
  · cases hres : xxmalloc st size with
    | ok p s' =>
      left
      refine ⟨p, s', rfl, ?_⟩
      by_cases hs : size ≤ 2048
      · have := (xxmalloc_small_spec hinv hs hres).1
        omega
      · obtain ⟨hp, -, -, -⟩ := xxmalloc_large_spec (by omega) hres
        have := hinv.nbPos
        omega
    | exited msg code s'' =>
      right
      obtain ⟨hc, hs⟩ := xxmalloc_exited_spec hres
      subst hc
      subst hs
      exact ⟨msg, rfl⟩
  · intro hmokf hor
    by_cases hlar : 2048 < size
    · refine ⟨LogMsg.mmapFailedGivingUp, ?_⟩
      rw [xxmalloc, if_pos hlar]
      simp only [AllocState.mmap]
      rw [if_neg (by rw [hmokf]; simp)]
    · have hemp : listsGet st (round_power_2 size - 4) = [] :=
        hor.resolve_left hlar
      refine ⟨LogMsg.mmapFailed, ?_⟩
      rw [xxmalloc, if_neg hlar, if_pos hemp]
      simp only [AllocState.mmap]
      rw [if_neg (by rw [hmokf]; simp)]

/-- **C8** witness: with the page source refusing memory, a small allocation
from the fresh (empty) table exits with status 2 and the state untouched. -/
theorem claim_C8_mapping_failure_fatal_witness :
    ∃ msg, xxmalloc (initState 4096 false) 16 =
      MallocResult.exited msg 2 (initState 4096 false) :=
  (claim_C8_mapping_failure_fatal
    (AllocInv.init 4096 false (by norm_num) (by decide)) 16
    (by rw [SIZE_T_MOD_eq]; norm_num)).2 rfl (Or.inr (by decide))

/-- **C2** counterexample: allocating 3000 bytes succeeds, but
`xxmalloc_usable_size` on the returned pointer is 0 — large mappings carry no
header, so the tag check fails — refuting `usable_size(allocate(s)) ≥ s` for
`s > 2048`. -/
theorem claim_C2_counterexample :
    xxmalloc (initState 4096 true) 3000 =
      MallocResult.ok 4096
        { lists := [[], [], [], [], [], [], [], []],
          pages := [⟨4096, PageKind.large 4096⟩],
          nextBase := 8192, mmapOk := true } ∧
    xxmalloc_usable_size
      { lists := [[], [], [], [], [], [], [], []],
        pages := [⟨4096, PageKind.large 4096⟩],
        nextBase := 8192, mmapOk := true } 4096 = 0 ∧
    ¬ (3000 ≤ xxmalloc_usable_size
        { lists := [[], [], [], [], [], [], [], []],
          pages := [⟨4096, PageKind.large 4096⟩],
          nextBase := 8192, mmapOk := true } 4096) := by
  refine ⟨by decide, by decide, by decide⟩

/-- **C2** amended: for every request size `size > 2048`, the mapping backing
a successful allocation has length `≥ size` and a multiple of the page size,
but `xxmalloc_usable_size` applied to the returned pointer is 0 (the large
mapping carries no header, so the ownership-tag check fails). -/
theorem claim_C2_amended {st st' : AllocState} {size ptr : Nat}
    (hinv : AllocInv st) (hlar : 2048 < size) (hsz : size < SIZE_T_MOD)
    (hok : xxmalloc st size = MallocResult.ok ptr st') :
    xxmalloc_usable_size st' ptr = 0 ∧
    ∃ pr ∈ st'.pages, pr.base = ptr ∧
      pr.kind = PageKind.large (ROUND_UP size PAGE_SIZE) ∧
      size ≤ ROUND_UP size PAGE_SIZE ∧
      ROUND_UP size PAGE_SIZE % PAGE_SIZE = 0 := by
  obtain ⟨hptr, hmok, hlen0, hst'⟩ := xxmalloc_large_spec hlar hok
  obtain ⟨hmod, -, hcov⟩ := ROUND_UP_page size hsz
  subst hptr
  subst hst'
  have hp0 : ¬ st.nextBase = 0 := by
    have := hinv.nbPos
    omega
  have hpg : pg_base st.nextBase = st.nextBase :=
    pg_base_eq_of hinv.nbAligned (le_refl _) (by rw [PAGE_SIZE_eq]; omega)
  have hfp : findPage
      { st with nextBase := st.nextBase + ROUND_UP size PAGE_SIZE,
                pages := ⟨st.nextBase, PageKind.large (ROUND_UP size PAGE_SIZE)⟩
                  :: st.pages } st.nextBase =
      some ⟨st.nextBase, PageKind.large (ROUND_UP size PAGE_SIZE)⟩ := by
    rw [findPage]
    exact List.find?_cons_of_pos _ (by simp [hpg])
  constructor
  · rw [xxmalloc_usable_size, if_neg hp0, hfp]
    norm_num [pageMagic, headerSize, MAGIC]
  · exact ⟨⟨st.nextBase, PageKind.large (ROUND_UP size PAGE_SIZE)⟩,
      List.mem_cons_self _ _, rfl, rfl, hcov hlen0, hmod⟩

/-- **C9**: for every `size_t` request `size > 2048`, the length the large
path hands to `mmap`, `ROUND_UP size PAGE_SIZE`, equals the least multiple of
the page size `≥ size` reduced modulo `2 ^ 64` (so sizes within a page of
`2 ^ 64` wrap to 0), and a successful call records exactly that mapping
length. -/
theorem claim_C9_round_up {size : Nat} (hlar : 2048 < size)
    (hsz : size < SIZE_T_MOD) :
    (∃ m, ROUND_UP size PAGE_SIZE = m % SIZE_T_MOD ∧ size ≤ m ∧
      m % PAGE_SIZE = 0 ∧ ∀ mm, size ≤ mm → mm % PAGE_SIZE = 0 → m ≤ mm) ∧
    (∀ st ptr st', xxmalloc st size = MallocResult.ok ptr st' →
      st'.pages = ⟨st.nextBase, PageKind.large (ROUND_UP size PAGE_SIZE)⟩
        :: st.pages) := by
  constructor
  · refine ⟨4096 * ((size + 4095) / 4096), (ROUND_UP_page size hsz).2.1, ?_, ?_, ?_⟩
    · exact (least_page_multiple size).1
    · rw [PAGE_SIZE_eq]
      exact (least_page_multiple size).2.1
    · intro mm h1 h2
      rw [PAGE_SIZE_eq] at h2
      exact (least_page_multiple size).2.2 mm h1 h2
  · intro st ptr st' hok
    obtain ⟨-, -, -, hst'⟩ := xxmalloc_large_spec hlar hok
    rw [hst']

/-- **C9** witness: the rounding law at 3000 (no wrap) and at `2 ^ 64 - 1`
(the `size_t` addition wraps the least multiple `2 ^ 64` to 0). -/
theorem claim_C9_round_up_witness :
    (∃ m, ROUND_UP 3000 PAGE_SIZE = m % SIZE_T_MOD ∧ 3000 ≤ m ∧
      m % PAGE_SIZE = 0 ∧ ∀ mm, 3000 ≤ mm → mm % PAGE_SIZE = 0 → m ≤ mm) ∧
    (∃ m, ROUND_UP (2 ^ 64 - 1) PAGE_SIZE = m % SIZE_T_MOD ∧ 2 ^ 64 - 1 ≤ m ∧
      m % PAGE_SIZE = 0 ∧ ∀ mm, 2 ^ 64 - 1 ≤ mm → mm % PAGE_SIZE = 0 → m ≤ mm) :=
  ⟨(claim_C9_round_up (by norm_num) (by rw [SIZE_T_MOD_eq]; norm_num)).1,
   (claim_C9_round_up (by norm_num) (by rw [SIZE_T_MOD_eq]; norm_num)).1⟩

/-- **C4**: free-list reuse is LIFO: releasing a pointer into a small block of
class `i` pushes that block's start on `lists[i]`, and the next `xxmalloc`
whose request classifies to class `i` returns exactly that block start. -/
theorem claim_C4_lifo_reuse {st : AllocState} {ptr i size pb : Nat}
    (h8 : st.lists.length = 8) (hptr : ptr ≠ 0)
    (hfp : findPage st ptr = some ⟨pb, PageKind.small (2 ^ (i + 4)) MAGIC⟩)
    (hi : i < 8) (hsz : size ≤ 2048) (hrp : round_power_2 size = i + 4) :
    ∃ st'', xxmalloc (xxfree st ptr) size =
      MallocResult.ok (ptr - ptr % 2 ^ (i + 4)) st'' := by
  have hbsne : ¬ (2 : Nat) ^ (i + 4) = 0 := by positivity
  have husz : xxmalloc_usable_size st ptr = 2 ^ (i + 4) := by
    simp [xxmalloc_usable_size, hptr, hfp, pageMagic, headerSize]
  have hfree : xxfree st ptr =
      { st with
          lists := st.lists.set i ((ptr - ptr % 2 ^ (i + 4)) :: listsGet st i),
          pages := storeNextAt st.pages (ptr - ptr % 2 ^ (i + 4)) ((listsGet st i).headD 0) } := by
    rw [xxfree, if_neg hptr, hfp]
    simp only [pageMagic, husz, hbsne, class_index_pow i hi]
    simp
  have hLg : listsGet
      { st with
          lists := st.lists.set i ((ptr - ptr % 2 ^ (i + 4)) :: listsGet st i),
          pages := storeNextAt st.pages (ptr - ptr % 2 ^ (i + 4)) ((listsGet st i).headD 0) } i =
      (ptr - ptr % 2 ^ (i + 4)) :: listsGet st i := by
    simp only [listsGet]
    exact getD_set_self _ _ _ (by rw [h8]; exact hi)
  refine ⟨{ st with lists := (st.lists.set i ((ptr - ptr % 2 ^ (i + 4)) :: listsGet st i)).set i (listsGet st i), pages := storeNextAt st.pages (ptr - ptr % 2 ^ (i + 4)) ((listsGet st i).headD 0) }, ?_⟩
  rw [hfree, xxmalloc, if_neg (by omega : ¬ 2048 < size), hrp]
  simp only [Nat.add_sub_cancel]
  rw [hLg, if_neg (List.cons_ne_nil _ _), pop_head, hLg]

/-- **C4** witness: release the single 2048-byte block of a carved page, then
allocate 2000 bytes again — the very same block comes back. -/
theorem claim_C4_lifo_reuse_witness :
    ∃ st'', xxmalloc
      (xxfree { lists := [[], [], [], [], [], [], [], []],
                pages := [⟨4096, PageKind.small 2048 MAGIC⟩],
                nextBase := 8192, mmapOk := true } 6144) 2000 =
      MallocResult.ok (6144 - 6144 % 2 ^ (7 + 4)) st'' :=
  @claim_C4_lifo_reuse
    { lists := [[], [], [], [], [], [], [], []],
      pages := [⟨4096, PageKind.small 2048 MAGIC⟩],
      nextBase := 8192, mmapOk := true } 6144 7 2000 4096
    (by decide) (by decide) (by decide) (by decide) (by decide) (by decide)

/-- **C3**: on a free-list miss (class list empty, `size ≤ 2048`), `xxmalloc`
obtains exactly one page from the page source and carves it: the page splits
into `n = PAGE_SIZE / block_size` equal blocks; block 0 receives the header
(ownership tag `MAGIC` and the class block size) and is not on the free list;
blocks `1..n-1` form the new free list in address order, each node's
successor being the block immediately after it and the last block ending the
list (`next = NULL`); that list is installed as the class's free-list head,
from which the call then pops. -/
theorem claim_C3_carve_contract {st : AllocState} {size : Nat}
    (hinv : AllocInv st) (hsz : size ≤ 2048) (hmm : st.mmapOk = true)
    (hempty : listsGet st (round_power_2 size - 4) = []) :
    ∀ bs n p s2, bs = 2 ^ round_power_2 size → n = PAGE_SIZE / bs →
      p = st.nextBase →
      s2 = carve_page { st with nextBase := st.nextBase + PAGE_SIZE }
            (round_power_2 size) st.nextBase →
      -- exactly one new page, with the header stamped into block 0
      s2.pages = ⟨p, PageKind.small bs MAGIC⟩ :: st.pages ∧
      pageMagic (PageKind.small bs MAGIC) = MAGIC ∧
      headerSize (PageKind.small bs MAGIC) = bs ∧
      -- the page splits into n equal blocks
      n * bs = PAGE_SIZE ∧ 2 ≤ n ∧
      -- blocks 1..n-1 in address order form the installed free list
      (listsGet s2 (round_power_2 size - 4)).length = n - 1 ∧
      (∀ j, j < n - 1 →
        (listsGet s2 (round_power_2 size - 4))[j]? = some (p + (j + 1) * bs)) ∧
      -- block 0 is never handed out: the header block is not on the list
      p ∉ listsGet s2 (round_power_2 size - 4) ∧
      -- allocation continues by popping from exactly this list
      xxmalloc st size = pop_head s2 (round_power_2 size - 4) := by
  rintro bs n p s2 rfl rfl rfl rfl
  obtain ⟨h4, h11, -, -⟩ := round_power_2_spec size hsz
  have hbs0 : 0 < (2 : Nat) ^ round_power_2 size :=
    Nat.pos_pow_of_pos _ (by norm_num)
  have hdvd : (2 : Nat) ^ round_power_2 size ∣ 4096 := class_dvd_page (by omega)
  have hlist : listsGet (carve_page { st with nextBase := st.nextBase + PAGE_SIZE }
        (round_power_2 size) st.nextBase) (round_power_2 size - 4) =
      (List.range (PAGE_SIZE / 2 ^ round_power_2 size - 1)).map
        (fun j => st.nextBase + (j + 1) * 2 ^ round_power_2 size) := by
    rw [carve_page]
    simp only [listsGet]
    exact getD_set_self _ _ _ (by rw [hinv.len8]; omega)
  refine ⟨rfl, rfl, rfl, ?_, two_le_blocks h11, ?_, ?_, ?_, ?_⟩
  · rw [PAGE_SIZE_eq] at *
    exact Nat.div_mul_cancel hdvd
  · rw [hlist]
    simp [List.length_map, List.length_range]
  · intro j hj
    rw [hlist, List.getElem?_map, List.getElem?_range hj]
    rfl
  · rw [hlist]
    intro hmem
    obtain ⟨j, hjr, hEq⟩ := List.mem_map.mp hmem
    have hpos : 0 < (j + 1) * 2 ^ round_power_2 size :=
      Nat.mul_pos (Nat.succ_pos j) hbs0
    omega
  · rw [xxmalloc, if_neg (by omega : ¬ 2048 < size), if_pos hempty]
    simp only [AllocState.mmap]
    rw [if_pos ⟨hmm, by rw [PAGE_SIZE_eq]; norm_num⟩]

/-- **C3** witness: carving for a 2000-byte request from a fresh state yields
one page stamped with the header, two 2048-byte blocks, the single non-header
block on the installed list, and allocation popping from it. -/
theorem claim_C3_carve_contract_witness :
    ({ lists := [[], [], [], [], [], [], [], [6144]],
       pages := [⟨4096, PageKind.small 2048 MAGIC⟩],
       nextBase := 8192, mmapOk := true } : AllocState).pages =
        ⟨4096, PageKind.small 2048 MAGIC⟩ :: (initState 4096 true).pages ∧
    pageMagic (PageKind.small 2048 MAGIC) = MAGIC ∧
    headerSize (PageKind.small 2048 MAGIC) = 2048 ∧
    2 * 2048 = PAGE_SIZE ∧
    (listsGet
      { lists := [[], [], [], [], [], [], [], [6144]],
        pages := [⟨4096, PageKind.small 2048 MAGIC⟩],
        nextBase := 8192, mmapOk := true } (round_power_2 2000 - 4)).length = 2 - 1 ∧
    (listsGet
      { lists := [[], [], [], [], [], [], [], [6144]],
        pages := [⟨4096, PageKind.small 2048 MAGIC⟩],
        nextBase := 8192, mmapOk := true } (round_power_2 2000 - 4))[0]? =
      some (4096 + (0 + 1) * 2048) ∧
    4096 ∉ listsGet
      { lists := [[], [], [], [], [], [], [], [6144]],
        pages := [⟨4096, PageKind.small 2048 MAGIC⟩],
        nextBase := 8192, mmapOk := true } (round_power_2 2000 - 4) ∧
    xxmalloc (initState 4096 true) 2000 =
      pop_head
        { lists := [[], [], [], [], [], [], [], [6144]],
          pages := [⟨4096, PageKind.small 2048 MAGIC⟩],
          nextBase := 8192, mmapOk := true } (round_power_2 2000 - 4) := by
  have hc := @claim_C3_carve_contract (initState 4096 true) 2000
    (AllocInv.init 4096 true (by norm_num) (by decide))
    (by norm_num) rfl (by decide)
    2048 2 4096
    { lists := [[], [], [], [], [], [], [], [6144]],
      pages := [⟨4096, PageKind.small 2048 MAGIC⟩],
      nextBase := 8192, mmapOk := true }
    (by decide) (by decide) rfl (by decide)
  exact ⟨hc.1, hc.2.1, hc.2.2.1, hc.2.2.2.1, hc.2.2.2.2.2.1,
    hc.2.2.2.2.2.2.1 0 (by norm_num), hc.2.2.2.2.2.2.2.1, hc.2.2.2.2.2.2.2.2⟩

/-- **C2** (amended) witness: the 3000-byte allocation is backed by a 4096-byte
page-aligned mapping, yet reports usable size 0. -/
theorem claim_C2_amended_witness :
    ∃ ptr st', xxmalloc (initState 4096 true) 3000 = MallocResult.ok ptr st' ∧
      xxmalloc_usable_size st' ptr = 0 ∧
      ∃ pr ∈ st'.pages, pr.base = ptr ∧
        pr.kind = PageKind.large (ROUND_UP 3000 PAGE_SIZE) ∧
        3000 ≤ ROUND_UP 3000 PAGE_SIZE ∧
        ROUND_UP 3000 PAGE_SIZE % PAGE_SIZE = 0 := by
  have hok : xxmalloc (initState 4096 true) 3000 =
      MallocResult.ok 4096 (xxmalloc (initState 4096 true) 3000).state := by
    decide
  have hc := claim_C2_amended (AllocInv.init 4096 true (by norm_num) (by decide))
    (by norm_num) (by rw [SIZE_T_MOD_eq]; norm_num) hok
  exact ⟨4096, _, hok, hc.1, hc.2⟩
